import Mathlib

/-!
Verification of the SuiteSparse:GraphBLAS selector engine, JIT dispatch and
CUDA branch oracle, as a shallow embedding in Lean 4.

Sources embedded:
* `Source/GB_selector.c` — the selector engine (iso fast path, bitmap
  dispatch, column selectors, general two-phase path, error handling).
* `Source/GB_AxB_saxpy5_jit.c` — JIT dispatch, artifact staleness check.
* `CUDA/GB_AxB_dot3_cuda_branch.cpp` — GPU-offload advisory oracle.

Machine integers are modelled as `Int`/`Nat`; the source's `int64_t`
arithmetic on entry counts never overflows for the sizes considered, and
well-formedness hypotheses mirror the `ASSERT`-checked invariants of the
C code, making all pointer arithmetic in-range.
-/

namespace GraphBLAS

/-! ## List-level machinery for the two-phase selector

`prefixSums` models the cumulative sum `GB_cumsum` applied to the per-vector
counts `Cp [0..anvec]` (phase 1b of `GB_selector.c`): the result has one more
element than the input, starts at 0, and ends with the total. -/

def prefixSums : List Nat → List Nat
  | [] => [0]
  | a :: t => 0 :: (prefixSums t).map (a + ·)

/-- Phase 2 of the selector writes the retained entries of vector `k` into
the output buffer at offset `Cp [k]`: `writeAt buf p xs` overwrites
`buf [p .. p + xs.length)` with `xs`, the list model of the compacted
writes done by the phase-2 kernels. -/
def writeAt (buf : List β) (p : Nat) (xs : List β) : List β :=
  buf.take p ++ xs ++ buf.drop (p + xs.length)

/-- The phase-2 pass over all vectors: write chunk `k` (the retained entries
of vector `k`) at offset `ps [k]` (the prefix-summed counts). -/
def phase2Scatter : List (List β) → List Nat → List β → List β
  | [], _, buf => buf
  | _ :: _, [], buf => buf
  | c :: rest, p :: ps, buf => phase2Scatter rest ps (writeAt buf p c)


inductive Storage
  | sparse | hypersparse | bitmap | full
deriving DecidableEq, Repr

structure SparseMat (α : Type) where
  vlen : Nat
  vdim : Nat
  nvec : Nat
  p : List Nat
  h : Option (List Int)
  i : List Int
  x : List α
  b : List Bool
  storage : Storage
  iso : Bool
  jumbled : Bool
  nzombies : Nat
  pending : Bool
deriving DecidableEq, Repr

namespace SparseMat

variable {α : Type}

/-- `anz = Ap [anvec]`, the number of stored entries of a sparse matrix. -/
def anz (A : SparseMat α) : Nat := A.p.getD A.nvec 0

/-- The single stored value of an iso matrix (`Ax [0]`). -/
def isoVal [Inhabited α] (A : SparseMat α) : α := A.x.headD default

/-- The values of a matrix expanded to one per entry: an iso matrix stores
one value shared by all entries. -/
def vals [Inhabited α] (A : SparseMat α) : List α :=
  if A.iso then List.replicate A.anz A.isoVal else A.x

/-- The stored entries `(row index, value)` in vector-major array order. -/
def flatEntries [Inhabited α] (A : SparseMat α) : List (Int × α) :=
  (A.i.zip A.vals).take A.anz

/-- The entries of the `k`-th vector, positions `[Ap k, Ap (k+1))`. -/
def vecEntries [Inhabited α] (A : SparseMat α) (k : Nat) : List (Int × α) :=
  ((A.i.zip A.vals).take (A.p.getD (k+1) 0)).drop (A.p.getD k 0)

/-- The column (vector) index of the `k`-th vector: `Ah [k]` when
hypersparse, `k` itself otherwise. -/
def colOf (A : SparseMat α) (k : Nat) : Int :=
  match A.h with
  | some ah => ah.getD k 0
  | none => (k : Int)

/-- The stored entries as `(row, col, value)` triples, vector-major then
entry order — the order in which the selector kernels traverse `A`. -/
def fullEntries [Inhabited α] (A : SparseMat α) : List (Int × Int × α) :=
  ((List.range A.nvec).map
    (fun k => (A.vecEntries k).map (fun e => (e.1, A.colOf k, e.2)))).flatten

/-- Constraints on the optional hyperlist: absent for sparse storage (with
`anvec = avdim`), strictly increasing and in `[0, avdim)` for hypersparse. -/
def hyperOk : Option (List Int) → Storage → Nat → Nat → Prop
  | none, st, nvec, vdim => st = Storage.sparse ∧ nvec = vdim
  | some ah, st, nvec, vdim => st = Storage.hypersparse ∧ ah.length = nvec ∧
      ah.Pairwise (· < ·) ∧ ∀ c ∈ ah, 0 ≤ c ∧ c < (vdim : Int)

instance : ∀ (o : Option (List Int)) (st : Storage) (nvec vdim : Nat),
    Decidable (hyperOk o st nvec vdim)
  | none, _, _, _ => inferInstanceAs (Decidable (_ ∧ _))
  | some _, _, _, _ => inferInstanceAs (Decidable (_ ∧ _ ∧ _ ∧ _))

/-- Well-formedness of a sparse/hypersparse matrix, as checked by
`GB_matvec_check`: `Ap` has `anvec+1` monotone entries starting at 0, the
arrays have matching sizes, and a hyperlist is strictly increasing and
in range. -/
def wf (A : SparseMat α) : Prop :=
  A.p.length = A.nvec + 1 ∧
  A.p.getD 0 0 = 0 ∧
  (∀ k, k < A.nvec → A.p.getD k 0 ≤ A.p.getD (k+1) 0) ∧
  A.i.length = A.anz ∧
  A.x.length = (if A.iso then 1 else A.anz) ∧
  A.b = [] ∧
  hyperOk A.h A.storage A.nvec A.vdim

instance (A : SparseMat α) : Decidable A.wf :=
  inferInstanceAs (Decidable (_ ∧ _ ∧ _ ∧ _ ∧ _ ∧ _ ∧ _))

end SparseMat

/-! ## Index-unary opcodes and the selector dispatch

`GB_Opcode` values used by `GB_selector.c`.  The `VALUE*` codes are
contiguous in the C enum; the iso fast path tests
`opcode >= GB_VALUENE_idxunop_code && opcode <= GB_VALUELE_idxunop_code`,
embedded here as membership in the value-opcode set. -/

inductive Opcode
  | rowindex | colindex | diagindex | tril | triu | diag | offdiag
  | colle | colgt | rowle | rowgt
  | nonzombie | user
  | valuene | valueeq | valuegt | valuege | valuelt | valuele
deriving DecidableEq, Repr

/-- The value-dependent selector opcodes (`GB_VALUENE_idxunop_code` through
`GB_VALUELE_idxunop_code`). -/
def Opcode.isValue : Opcode → Bool
  | .valuene | .valueeq | .valuegt | .valuege | .valuelt | .valuele => true
  | _ => false

/-- `GB_OPCODE_IS_POSITIONAL`: opcodes whose result depends only on the
entry's coordinates. -/
def Opcode.isPositional : Opcode → Bool
  | .rowindex | .colindex | .diagindex | .tril | .triu | .diag | .offdiag
  | .colle | .colgt | .rowle | .rowgt => true
  | _ => false

/-- The three column-selector opcodes handled by the single-pass column
path of `GB_selector.c` (lines 287-540). -/
def Opcode.isCol : Opcode → Bool
  | .colindex | .colle | .colgt => true
  | _ => false

def isBitmapMat (A : SparseMat α) : Bool := A.storage = Storage.bitmap

def isFullMat (A : SparseMat α) : Bool := A.storage = Storage.full

/-- Modelled from the spec: `GB_as_if_full` is not under `src/`; per the
source comment in `GB_selector.c` (lines 230-234) and the spec, a matrix is
as-if-full when it is full, or sparse/hypersparse with all entries present,
not jumbled, no zombies, and no pending tuples. -/
def asIfFull (A : SparseMat α) : Bool :=
  isFullMat A ||
    (!isBitmapMat A && decide (A.anz = A.vlen * A.vdim) && !A.jumbled &&
      decide (A.nzombies = 0) && !A.pending)

/-- The `use_selector_bitmap` decision of `GB_selector.c` (lines 212-236):
never for the nonzombie opcode or in-place selection; for `DIAG` only when
`A` is actually bitmap; otherwise whenever `A` is bitmap or as-if-full. -/
def useSelectorBitmap (A : SparseMat α) (op : Opcode) (inPlaceA : Bool) : Bool :=
  if op = Opcode.nonzombie || inPlaceA then false
  else if op = Opcode.diag then isBitmapMat A
  else isBitmapMat A || asIfFull A

inductive SelPath
  | isoFast | bitmap | column | general
deriving DecidableEq, Repr

/-- Which code path `GB_selector` takes, in the priority order of the
source: the iso fast path (lines 147-192), then the bitmap selector
(lines 212-252), then the column selectors (lines 287-540), then the
general two-phase path. -/
def selectorPath (A : SparseMat α) (op : Opcode) (inPlaceA : Bool) : SelPath :=
  if A.iso && op.isValue then SelPath.isoFast
  else if useSelectorBitmap A op inPlaceA then SelPath.bitmap
  else if op.isCol then SelPath.column
  else SelPath.general

/-! ## Shallow copy and empty result -/

/-- Modelled from the spec: `GB_shallow_copy` is not under `src/`; per the
spec it returns a shallow copy of `A` sharing all pattern and value arrays,
hence observationally identical to `A`. -/
def shallowCopy (A : SparseMat α) : SparseMat α := A

/-- Modelled from the spec: `GB_new (_, type, avlen, avdim, GB_Ap_calloc, ...)`
is not under `src/`; per the spec it returns an empty matrix of the same
shape and type (`plen = 1`, auto sparsity picks hypersparse for an empty
matrix). -/
def emptyLike (A : SparseMat α) : SparseMat α :=
  { vlen := A.vlen, vdim := A.vdim, nvec := 0, p := [0], h := some [],
    i := [], x := [], b := [], storage := Storage.hypersparse, iso := false,
    jumbled := false, nzombies := 0, pending := false }

/-! ## The column selectors (`GB_selector.c` lines 287-540) -/

/-- Locate column `j` in `A` (lines 302-332).  Out-of-range `j` is guarded
before any search: `j < 0` gives `(0, false)` and `j ≥ avdim` gives
`(anvec, false)`.  For hypersparse `A` the code runs
`GB_SPLIT_BINARY_SEARCH` on `Ah`; that macro is not under `src/`, so the
search is modelled from the spec and the documented postcondition (lines
324-325): if found then `Ah [k] = j`, else `Ah [0..k-1] < j` and
`Ah [k..anvec-1] > j` — with `Ah` strictly increasing, `k` is the number of
hyperlist entries below `j`.  Non-hypersparse: `k = j`, always found. -/
def colFind (A : SparseMat α) (j : Int) : Nat × Bool :=
  if j < 0 then (0, false)
  else if (A.vdim : Int) ≤ j then (A.nvec, false)
  else match A.h with
    | some ah => (ah.countP (fun c => decide (c < j)), ah.contains j)
    | none => (j.toNat, true)

/-! The single-pass column selectors (`COLINDEX`, `COLLE`, `COLGT`).  The
target column is `j = -ithunk` for `COLINDEX` and `j = ithunk` otherwise
(line 302).  Entry and vector counts are computed in closed form (lines
338-361); if everything or nothing is retained the result is a pure shallow
copy or an empty matrix (lines 363-374); otherwise the output arrays are
assembled by the bulk copies of lines 398-526, rendered here as
`take`/`drop`/`map` on the array lists. -/

/-- `COLINDEX`: delete the target column `j = -ithunk` (lines 344-349,
404-453).  `cnz = anz - ajnz`; when everything survives the result is a
pure shallow copy, when nothing does it is an empty matrix; otherwise the
pattern and values are copied around the deleted column's range. -/
def colSelectColIndex [Inhabited α] (A : SparseMat α) (ithunk : Int) :
    SparseMat α :=
  let j : Int := -ithunk
  let kf := colFind A j
  let k := kf.1
  let found := kf.2
  let pstart := A.p.getD k 0
  let pend := if found then A.p.getD (k+1) 0 else pstart
  let ajnz := pend - pstart
  let anz := A.p.getD A.nvec 0
  let hyper := A.h.isSome
  let cnz := anz - ajnz
  let cnvec := if hyper && found then A.nvec - 1 else A.nvec
  if cnz = anz then shallowCopy A
  else if cnz = 0 then emptyLike A
  else
    let cp : List Nat :=
      if hyper then A.p.take k ++ (A.p.drop (k+1)).map (· - ajnz)
      else A.p.take (k+1) ++ (A.p.drop (k+1)).map (· - ajnz)
    let ch : Option (List Int) :=
      match A.h with
      | none => none
      | some ah => some (ah.take k ++ ah.drop (k+1))
    { vlen := A.vlen, vdim := A.vdim, nvec := cnvec, p := cp, h := ch,
      i := A.i.take pstart ++ A.i.drop pend,
      x := if A.iso then [A.isoVal] else A.x.take pstart ++ A.x.drop pend,
      b := [],
      storage := if hyper then Storage.hypersparse else Storage.sparse,
      iso := A.iso, jumbled := A.jumbled, nzombies := 0, pending := false }

/-- `COLLE`: keep columns `0..j` for `j = ithunk` (lines 350-355, 454-487).
`cnz = pend`; the retained ranges are prefixes of the pattern arrays. -/
def colSelectColLE [Inhabited α] (A : SparseMat α) (ithunk : Int) :
    SparseMat α :=
  let kf := colFind A ithunk
  let k := kf.1
  let found := kf.2
  let pstart := A.p.getD k 0
  let pend := if found then A.p.getD (k+1) 0 else pstart
  let anz := A.p.getD A.nvec 0
  let hyper := A.h.isSome
  let cnz := pend
  let cnvec := if hyper then (if found then k+1 else k) else A.nvec
  if cnz = anz then shallowCopy A
  else if cnz = 0 then emptyLike A
  else
    let cp : List Nat :=
      if hyper then A.p.take (cnvec+1)
      else A.p.take (k+2) ++ List.replicate (A.nvec - (k+1)) cnz
    let ch : Option (List Int) :=
      match A.h with
      | none => none
      | some ah => some (ah.take cnvec)
    { vlen := A.vlen, vdim := A.vdim, nvec := cnvec, p := cp, h := ch,
      i := A.i.take cnz,
      x := if A.iso then [A.isoVal] else A.x.take cnz, b := [],
      storage := if hyper then Storage.hypersparse else Storage.sparse,
      iso := A.iso, jumbled := A.jumbled, nzombies := 0, pending := false }

/-- `COLGT`: keep columns `j+1..end` for `j = ithunk` (lines 356-361,
489-526).  `cnz = anz - pend`; the retained ranges are suffixes. -/
def colSelectColGT [Inhabited α] (A : SparseMat α) (ithunk : Int) :
    SparseMat α :=
  let kf := colFind A ithunk
  let k := kf.1
  let found := kf.2
  let pstart := A.p.getD k 0
  let pend := if found then A.p.getD (k+1) 0 else pstart
  let anz := A.p.getD A.nvec 0
  let hyper := A.h.isSome
  let cnz := anz - pend
  let cnvec := A.nvec - (if hyper then (if found then k+1 else k) else 0)
  if cnz = anz then shallowCopy A
  else if cnz = 0 then emptyLike A
  else
    let cp : List Nat :=
      if hyper then (A.p.drop (k + (if found then 1 else 0))).map (· - pend)
      else List.replicate (k+1) 0 ++ (A.p.drop (k+1)).map (· - pend)
    let ch : Option (List Int) :=
      match A.h with
      | none => none
      | some ah => some (ah.drop (k + (if found then 1 else 0)))
    { vlen := A.vlen, vdim := A.vdim, nvec := cnvec, p := cp, h := ch,
      i := A.i.drop pend,
      x := if A.iso then [A.isoVal] else A.x.drop pend, b := [],
      storage := if hyper then Storage.hypersparse else Storage.sparse,
      iso := A.iso, jumbled := A.jumbled, nzombies := 0, pending := false }

def colSelect [Inhabited α] (A : SparseMat α) (op : Opcode) (ithunk : Int) :
    SparseMat α :=
  match op with
  | Opcode.colindex => colSelectColIndex A ithunk
  | Opcode.colle => colSelectColLE A ithunk
  | _ => colSelectColGT A ithunk

/-! ## The general two-phase path (`GB_selector.c` lines 542-893)

The per-entry tests of phase 1 and phase 2 live in the factory templates
(`GB_select_entry_phase1_template.c`, `GB_select_phase2.c`), which are not
under `src/`; following the spec, phase 1 produces the live-entry count of
each vector and phase 2 writes the retained entries of vector `k` at the
prefix-summed offset `Cp [k]`.  The abstract predicate
`keep : row → col → value → Bool` stands for the instantiated entry test
(for example `Ax [p] <= y` in `GB_sel__le_thunk_int16.c`). -/

/-- Phase 1: the number of live entries in each vector of `A` (the counts
accumulated into `Cp [0..anvec-1]` before the cumulative sum). -/
def phase1Counts [Inhabited α] (A : SparseMat α)
    (keep : Int → Int → α → Bool) : List Nat :=
  (List.range A.nvec).map
    (fun k => (A.vecEntries k).countP (fun e => keep e.1 (A.colOf k) e.2))

/-- The retained entries of each vector (what phase 2 writes for vector `k`). -/
def selectedChunks [Inhabited α] (A : SparseMat α)
    (keep : Int → Int → α → Bool) : List (List (Int × α)) :=
  (List.range A.nvec).map
    (fun k => (A.vecEntries k).filter (fun e => keep e.1 (A.colOf k) e.2))

/-- Phase 1b: the cumulative sum of the per-vector counts
(`GB_ek_slice_merge2`, line 683), giving the output vector-start offsets. -/
def generalCp [Inhabited α] (A : SparseMat α)
    (keep : Int → Int → α → Bool) : List Nat :=
  prefixSums (phase1Counts A keep)

/-- Phase 2: the compacted output buffer.  The buffer is allocated with
`max (Cp [anvec]) 1` slots (line 691: `cnz = GB_IMAX (cnz, 1)`) and each
vector's retained entries are written at offset `Cp [k]`. -/
def generalOut [Inhabited α] (A : SparseMat α)
    (keep : Int → Int → α → Bool) : List (Int × α) :=
  let cnzReal := (generalCp A keep).getD A.nvec 0
  phase2Scatter (selectedChunks A keep) (generalCp A keep)
    (List.replicate (max cnzReal 1) ((0 : Int), (default : α)))

/-- The hyperlist prune of the finalization step (lines 864-875): keep only
the non-empty vectors, compacting `Cp` and `Ch`. -/
def hyperPrune (cp : List Nat) (ah : List Int) (nvec : Nat) :
    List Nat × List Int :=
  let ks := (List.range nvec).filter (fun k => cp.getD k 0 < cp.getD (k+1) 0)
  (ks.map (fun k => cp.getD k 0) ++ [cp.getD nvec 0],
   ks.map (fun k => ah.getD k 0))

/-- The general two-phase selector producing a new matrix `C` (lines
836-893).  `C` is iso when `A` is iso or the opcode is `VALUEEQ` (line
198); in that case `GB_select_iso` (line 709) stores the thunk for
`VALUEEQ` and `Ax [0]` otherwise. -/
def generalSelect [Inhabited α] (A : SparseMat α) (op : Opcode)
    (keep : Int → Int → α → Bool) (athunk : α) : SparseMat α :=
  let cp := generalCp A keep
  let buf := generalOut A keep
  let cIso := A.iso || op = Opcode.valueeq
  let cx : List α :=
    if cIso then [if op = Opcode.valueeq then athunk else A.isoVal]
    else buf.map Prod.snd
  match A.h with
  | none =>
      { vlen := A.vlen, vdim := A.vdim, nvec := A.nvec, p := cp, h := none,
        i := buf.map Prod.fst, x := cx, b := [], storage := Storage.sparse,
        iso := cIso, jumbled := A.jumbled, nzombies := 0, pending := false }
  | some ah =>
      let pr := hyperPrune cp ah A.nvec
      { vlen := A.vlen, vdim := A.vdim, nvec := pr.2.length, p := pr.1,
        h := some pr.2, i := buf.map Prod.fst, x := cx, b := [],
        storage := Storage.hypersparse, iso := cIso, jumbled := A.jumbled,
        nzombies := 0, pending := false }

/-- The general two-phase selector operating on `A` in place (lines
783-834): same pattern and values as the new-matrix form, but `A`'s zombie
count and pending state are left untouched (the `NONZOMBIE` bookkeeping is
reset later, in `GB_wait`). -/
def generalSelectInPlace [Inhabited α] (A : SparseMat α) (op : Opcode)
    (keep : Int → Int → α → Bool) (athunk : α) : SparseMat α :=
  { generalSelect A op keep athunk with
      nzombies := A.nzombies, pending := A.pending }

/-! ## Bitmap selector and the full selector model -/

/-- Modelled from the spec: `GB_selector_bitmap` is not under `src/`; per
the spec it evaluates the predicate per entry directly over the occupancy
array and the output remains in bitmap form (entries are laid out
column-major, position `t` holding row `t % vlen` of vector `t / vlen`). -/
def bitmapSelect [Inhabited α] (A : SparseMat α)
    (keep : Int → Int → α → Bool) : SparseMat α :=
  { A with
      b := (List.range (A.vlen * A.vdim)).map
        (fun t => A.b.getD t false &&
          keep ((t % A.vlen : Nat) : Int) ((t / A.vlen : Nat) : Int)
            (if A.iso then A.isoVal else A.x.getD t default)),
      storage := Storage.bitmap, jumbled := false,
      nzombies := 0, pending := false }

/-- The selector `GB_selector`, dispatching exactly as the source does: the
iso fast path evaluates the predicate once on the single stored value
(wrapped in a 1-by-1 scalar at row 0, column 0, lines 160-173) and returns
a shallow copy of `A` or an empty matrix; then the bitmap, column and
general paths. -/
def selectorModel [Inhabited α] (A : SparseMat α) (op : Opcode)
    (inPlaceA : Bool) (keep : Int → Int → α → Bool) (athunk : α)
    (ithunk : Int) : SparseMat α :=
  if A.iso && op.isValue then
    (if keep 0 0 A.isoVal then shallowCopy A else emptyLike A)
  else if useSelectorBitmap A op inPlaceA then bitmapSelect A keep
  else if op.isCol then colSelect A op ithunk
  else if inPlaceA then generalSelectInPlace A op keep athunk
  else generalSelect A op keep athunk

/-- How many times the selector applies the value predicate to a stored
value, per path: once on the iso fast path (the single
`GB_selector_bitmap` call on the wrapped scalar), once per occupancy slot
on the bitmap path, never on the (positional) column path, and twice per
stored entry on the general path for value-dependent opcodes (phase 1 and
phase 2 each test every entry). -/
def selectorEvalCount [Inhabited α] (A : SparseMat α) (op : Opcode)
    (inPlaceA : Bool) : Nat :=
  match selectorPath A op inPlaceA with
  | SelPath.isoFast => 1
  | SelPath.bitmap => A.vlen * A.vdim
  | SelPath.column => 0
  | SelPath.general =>
      if op.isValue || op = Opcode.user then 2 * A.anz else 0

/-! ## Allocation accounting for the general path (`GB_selector.c` lines
546-700, 856-862)

`GB_FREE_WORKSPACE` frees `Zp`, `Work`, `A_ek_slicing`, `Cp`, `Ch`, `Ci`
and `Cx`; `GB_FREE_ALL` additionally frees the partially built output
matrix (`GB_phybix_free (C)`).  The allocation oracle says which
allocations succeed; the model walks the general path's allocation sites in
source order and reports which blocks are still live on each exit. -/

inductive AllocBlk
  | cp | slicing | work | zp | ci | cx | ch
deriving DecidableEq, Repr

structure AllocState where
  live : List AllocBlk
  cLive : Bool      -- the partially built output matrix C
  aMutated : Bool   -- whether the input A was modified (in-place transplant)
deriving DecidableEq, Repr

/-- `GB_FREE_ALL`: free all workspace and the partially built `C`. -/
def freeAllSel (s : AllocState) : AllocState :=
  { live := [], cLive := false, aMutated := s.aMutated }

inductive SelAllocResult
  | ok (s : AllocState)
  | oom (s : AllocState)
deriving DecidableEq, Repr

/-- The allocation walk of the general path: `Cp` (line 560, returning
out-of-memory directly — nothing is allocated yet), the ek-slicing
(`GB_SLICE_MATRIX_WORK`, line 574), the per-task workspace `Work` (line
580), the positional workspace `Zp` (line 603), the output arrays `Ci` and
`Cx` (lines 692-700), and for a new hypersparse output the compacted `Ch`
(lines 856-862).  Each failure after the first frees everything via
`GB_FREE_ALL`; on success the workspace is freed and the arrays are
transplanted into the result. -/
def selectorGeneralAlloc (alloc : AllocBlk → Bool)
    (positional hyperOut inPlaceA : Bool) : SelAllocResult :=
  if !alloc AllocBlk.cp then
    SelAllocResult.oom { live := [], cLive := false, aMutated := false }
  else
    let s1 : AllocState := { live := [AllocBlk.cp], cLive := false,
                             aMutated := false }
    if !alloc AllocBlk.slicing then SelAllocResult.oom (freeAllSel s1)
    else
      let s2 := { s1 with live := AllocBlk.slicing :: s1.live }
      if !alloc AllocBlk.work then SelAllocResult.oom (freeAllSel s2)
      else
        let s3 := { s2 with live := AllocBlk.work :: s2.live }
        if positional && !alloc AllocBlk.zp then
          SelAllocResult.oom (freeAllSel s3)
        else
          let s4 := if positional
            then { s3 with live := AllocBlk.zp :: s3.live } else s3
          if !alloc AllocBlk.ci || !alloc AllocBlk.cx then
            SelAllocResult.oom (freeAllSel s4)
          else
            let s5 := { s4 with
              live := AllocBlk.cx :: AllocBlk.ci :: s4.live, cLive := true }
            if !inPlaceA && hyperOut && !alloc AllocBlk.ch then
              SelAllocResult.oom (freeAllSel s5)
            else
              -- success: workspace freed, arrays transplanted into C (or A)
              SelAllocResult.ok { live := [], cLive := !inPlaceA,
                                  aMutated := inPlaceA }

/-! ## JIT dispatch (`Source/GB_AxB_saxpy5_jit.c`)

The environment records the outcome of each external step the dispatcher
performs: encoding, cache lookup, `dlopen` of a previously compiled
artifact, the introspection queries, writing and compiling the generated
source, `dlsym` of the entry point, and the hash-table insert. -/

structure JitEnv where
  encodable : Bool               -- GB_encodify_mxm hash ≠ UINT64_MAX
  cached : Bool                  -- GB_jitifyer_lookup hit
  artifactLoads : Bool           -- dlopen of the on-disk lib*.so succeeds
  builtin : Bool                 -- encoding.suffix_len == 0
  queryDefnPresent : Bool        -- dlsym "GB_jit_query_defn" found
  versionMatches : Bool          -- GB_jitifyer_match_version
  recordedDefn : Fin 5 → String  -- defn texts recorded in the artifact
  currentDefn : Fin 5 → String   -- defn texts of the current request
  idtermMatches : Bool           -- GB_jitifyer_match_idterm
  sourceWriteOk : Bool           -- fopen of the generated *.c file
  compiledLoads : Bool           -- dlopen after GB_jitifyer_compile
  entrySymbolOk : Bool           -- dlsym "GB_jit_kernel" found
  insertOk : Bool                -- GB_jitifyer_insert

/-- Which kernel ends up being invoked on success. -/
inductive JitKernelUsed
  | fromCache          -- in-memory cache hit
  | preexistingArtifact -- the on-disk artifact, validated as current
  | freshArtifact       -- a newly compiled artifact
deriving DecidableEq, Repr

/-- The `GrB_Info` values `GB_AxB_saxpy5_jit` can return before invoking a
kernel: `GrB_NO_VALUE` tells the dispatcher to fall back to the generic
non-JIT kernel; `GrB_PANIC` is a hard error; `GrB_OUT_OF_MEMORY` is
resource exhaustion. -/
inductive JitOutcome
  | success (k : JitKernelUsed)
  | noValue
  | panic
  | outOfMemory
deriving DecidableEq, Repr

structure JitCallResult where
  outcome : JitOutcome
  staleUnloaded : Bool  -- dlclose of a stale loaded artifact (line 118)
deriving DecidableEq, Repr

/-- Modelled from the spec: `GB_jitifyer_match_defn` is not under `src/`;
per the spec it compares the artifact's recorded operator/type definition
text against the current request's, failing when the introspection symbol
is missing. -/
def GB_jitifyer_match_defn (env : JitEnv) (k : Fin 5) : Bool :=
  env.queryDefnPresent && decide (env.recordedDefn k = env.currentDefn k)

/-- The staleness test of lines 107-114: version mismatch, any
operator/type definition mismatch (monoid op, multiply op, and the three
operand types), or a failed identity/terminal comparison. -/
def jitArtifactStale (env : JitEnv) : Bool :=
  !env.versionMatches ||
  !GB_jitifyer_match_defn env 0 ||
  !GB_jitifyer_match_defn env 1 ||
  !GB_jitifyer_match_defn env 2 ||
  !GB_jitifyer_match_defn env 3 ||
  !GB_jitifyer_match_defn env 4 ||
  !env.idtermMatches

/-- Shared tail of the dispatch (lines 189-207): resolve `GB_jit_kernel`
(missing symbol returns `GrB_PANIC`), then insert into the hash table
(failure returns `GrB_OUT_OF_MEMORY`). -/
def jitFinish (env : JitEnv) (k : JitKernelUsed) (unloaded : Bool) :
    JitCallResult :=
  if !env.entrySymbolOk then ⟨JitOutcome.panic, unloaded⟩
  else if !env.insertOk then ⟨JitOutcome.outOfMemory, unloaded⟩
  else ⟨JitOutcome.success k, unloaded⟩

/-- `GB_AxB_saxpy5_jit`, lines 53-215: encode and hash (an unencodable
semiring returns `GrB_NO_VALUE`), look up the in-memory cache, else try the
on-disk artifact; a loaded non-built-in artifact is checked for staleness
and unloaded and recompiled on any mismatch; compilation failures return
`GrB_PANIC` (source-write failure line 143, load failure line 182). -/
def GB_AxB_saxpy5_jit_model (env : JitEnv) : JitCallResult :=
  if !env.encodable then ⟨JitOutcome.noValue, false⟩
  else if env.cached then ⟨JitOutcome.success JitKernelUsed.fromCache, false⟩
  else if !env.artifactLoads then
    -- need_to_compile: no artifact on disk
    if !env.sourceWriteOk then ⟨JitOutcome.panic, false⟩
    else if !env.compiledLoads then ⟨JitOutcome.panic, false⟩
    else jitFinish env JitKernelUsed.freshArtifact false
  else if !env.builtin && jitArtifactStale env then
    -- loaded but stale: dlclose it and recompile (lines 115-119)
    if !env.sourceWriteOk then ⟨JitOutcome.panic, true⟩
    else if !env.compiledLoads then ⟨JitOutcome.panic, true⟩
    else jitFinish env JitKernelUsed.freshArtifact true
  else jitFinish env JitKernelUsed.preexistingArtifact false

/-! ## The CUDA offload oracle (`CUDA/GB_AxB_dot3_cuda_branch.cpp`)

The operand facts the branch reads.  The `double` arithmetic of the cost
estimate is modelled exactly over `ℚ`; the GPU-count heuristic
`GB_ngpus_to_use` is an abstract function of the work estimate. -/

structure CudaMat where
  nnz : Nat
  nvec : Nat
  typeIsUserDefined : Bool  -- type code == GB_UDT_code
  isBitmap : Bool
  isFull : Bool
deriving DecidableEq, Repr

/-- `adeg = nnz (A) / GB_IMAX (1, A->nvec)`. -/
def avgDegree (A : CudaMat) : ℚ := (A.nnz : ℚ) / ((max 1 A.nvec : Nat) : ℚ)

/-- `work = nnz (M) * GB_IMIN (adeg, bdeg)`. -/
def dot3Work (M A B : CudaMat) : ℚ :=
  (M.nnz : ℚ) * min (avgDegree A) (avgDegree B)

/-- `GB_AxB_dot3_cuda_branch`: offload only when the GPU-count heuristic
reports at least one GPU for the work estimate and neither operand has a
user-defined type or bitmap/full storage. -/
def GB_AxB_dot3_cuda_branch (ngpusToUse : ℚ → Nat) (M A B : CudaMat) : Bool :=
  let work := dot3Work M A B
  if 0 < ngpusToUse work
      ∧ A.typeIsUserDefined = false ∧ B.typeIsUserDefined = false
      ∧ A.isBitmap = false ∧ B.isBitmap = false
      ∧ A.isFull = false ∧ B.isFull = false
  then true else false

/-! ## Concrete instances used as counterexamples and witnesses -/

/-- A sparse matrix that is as-if-full: 2 rows, 1 column, both entries
present, not jumbled, no zombies, no pending tuples. -/
def asIfFullDiagEx : SparseMat Int :=
  { vlen := 2, vdim := 1, nvec := 1, p := [0, 2], h := none, i := [0, 1],
    x := [5, 7], b := [], storage := Storage.sparse, iso := false,
    jumbled := false, nzombies := 0, pending := false }

/-- A bitmap-storage matrix, 2 rows by 2 columns with 3 entries present. -/
def bitmapEx : SparseMat Int :=
  { vlen := 2, vdim := 2, nvec := 2, p := [], h := none, i := [],
    x := [3, 0, 4, 9], b := [true, false, true, true],
    storage := Storage.bitmap, iso := false, jumbled := false,
    nzombies := 0, pending := false }

/-- An iso sparse matrix with 3 entries, stored value 5. -/
def isoEx : SparseMat Int :=
  { vlen := 4, vdim := 2, nvec := 2, p := [0, 2, 3], h := none, i := [0, 2, 1],
    x := [5], b := [], storage := Storage.sparse, iso := true,
    jumbled := false, nzombies := 0, pending := false }

/-- The spec's column-path example: a sparse matrix with 5 vectors whose
nonzero counts are `[3, 0, 2, 5, 1]`. -/
def colEx : SparseMat Int :=
  { vlen := 6, vdim := 5, nvec := 5, p := [0, 3, 3, 5, 10, 11], h := none,
    i := [0, 2, 4, 1, 3, 0, 1, 2, 3, 5, 2],
    x := [10, 11, 12, 20, 21, 30, 31, 32, 33, 34, 40], b := [],
    storage := Storage.sparse, iso := false, jumbled := false,
    nzombies := 0, pending := false }

/-- A JIT environment in which the kernel is not cached, no artifact exists
on disk, and writing the generated source file fails. -/
def jitEnvWriteFail : JitEnv :=
  { encodable := true, cached := false, artifactLoads := false,
    builtin := true, queryDefnPresent := true, versionMatches := true,
    recordedDefn := fun _ => "", currentDefn := fun _ => "",
    idtermMatches := true, sourceWriteOk := false, compiledLoads := false,
    entrySymbolOk := true, insertOk := true }

/-- A JIT environment in which a non-built-in on-disk artifact loads but
its recorded operator definition differs from the current request, and
recompilation succeeds. -/
def jitEnvStale : JitEnv :=
  { encodable := true, cached := false, artifactLoads := true,
    builtin := false, queryDefnPresent := true, versionMatches := true,
    recordedDefn := fun _ => "old defn", currentDefn := fun _ => "new defn",
    idtermMatches := true, sourceWriteOk := true, compiledLoads := true,
    entrySymbolOk := true, insertOk := true }

/-- CUDA operands: a matrix of user-defined type, and plain sparse ones. -/
def cudaUdtEx : CudaMat :=
  { nnz := 10, nvec := 2, typeIsUserDefined := true, isBitmap := false,
    isFull := false }

def cudaSparseEx : CudaMat :=
  { nnz := 10, nvec := 2, typeIsUserDefined := false, isBitmap := false,
    isFull := false }

/-- An allocation oracle for which only the output array `Ci` fails. -/
def allocFailCi : AllocBlk → Bool := fun blk => !(blk = AllocBlk.ci)

/-! ## Lemmas about the list machinery -/

theorem prefixSums_length (l : List Nat) : (prefixSums l).length = l.length + 1 := by
  induction l with
  | nil => rfl
  | cons a t ih => simp [prefixSums, ih]

theorem prefixSums_getD_le (l : List Nat) :
    ∀ k, k ≤ l.length → (prefixSums l).getD k 0 = (l.take k).sum := by
  induction l with
  | nil =>
      intro k hk
      match k, hk with
      | 0, _ => rfl
  | cons a t ih =>
      intro k hk
      match k with
      | 0 => rfl
      | (k+1) =>
          simp only [List.length_cons, Nat.add_le_add_iff_right] at hk
          have hlen : k < ((prefixSums t).map (a + ·)).length := by
            simp [prefixSums_length]
            omega
          have hlen' : k < (prefixSums t).length := by
            simpa using hlen
          simp only [prefixSums, List.getD_cons_succ]
          rw [List.getD_eq_getElem _ _ hlen, List.getElem_map,
            ← List.getD_eq_getElem _ 0 hlen', ih k hk]
          simp

theorem prefixSums_total (l : List Nat) :
    (prefixSums l).getD l.length 0 = l.sum := by
  rw [prefixSums_getD_le l l.length le_rfl, List.take_length]

theorem writeAt_zero (buf : List β) (xs : List β) :
    writeAt buf 0 xs = xs ++ buf.drop xs.length := by
  simp [writeAt]

theorem writeAt_append_shift (pre b : List β) (p : Nat) (xs : List β) :
    writeAt (pre ++ b) (pre.length + p) xs = pre ++ writeAt b p xs := by
  simp only [writeAt]
  rw [List.take_append_eq_append_take, List.drop_append_eq_append_drop]
  have h1 : pre.length + p - pre.length = p := by omega
  have h2 : pre.length + p + xs.length - pre.length = p + xs.length := by omega
  rw [List.take_of_length_le (by omega), List.drop_eq_nil_of_le (by omega), h1, h2]
  simp

theorem phase2Scatter_shift (pre : List β) :
    ∀ (chunks : List (List β)) (ps : List Nat) (b : List β),
    phase2Scatter chunks (ps.map (pre.length + ·)) (pre ++ b) =
      pre ++ phase2Scatter chunks ps b := by
  intro chunks
  induction chunks with
  | nil => intro ps b; rfl
  | cons c rest ih =>
      intro ps b
      match ps with
      | [] => rfl
      | p :: pt =>
          simp only [List.map_cons, phase2Scatter]
          rw [writeAt_append_shift, ih]

/-- Correctness of the prefix-sum compaction: writing each chunk at its
prefix-summed offset tiles the buffer with the concatenation of the chunks. -/
theorem phase2Scatter_join (chunks : List (List β)) :
    ∀ buf, phase2Scatter chunks (prefixSums (chunks.map List.length)) buf =
      chunks.flatten ++ buf.drop (chunks.map List.length).sum := by
  induction chunks with
  | nil => intro buf; simp [phase2Scatter, prefixSums]
  | cons c rest ih =>
      intro buf
      simp only [List.map_cons, prefixSums, phase2Scatter, writeAt_zero]
      rw [phase2Scatter_shift c _ _ (buf.drop c.length), ih]
      simp only [List.flatten_cons, List.drop_drop, List.sum_cons, List.append_assoc,
        Nat.add_comm]

/-! ## Sparse matrix descriptor

Shallow embedding of the `GrB_Matrix` fields that `GB_selector.c` reads:
`vlen`/`vdim` (avlen/avdim), `nvec` (anvec), the vector pointers `p` (Ap),
the optional hyperlist `h` (Ah), row indices `i` (Ai), values `x` (Ax, one
element when iso), the bitmap occupancy `b` (Ab), and the state flags. -/

/-! ## Claim C7: the CUDA offload oracle -/

/-- Claim C7: `GB_AxB_dot3_cuda_branch` returns false whenever either input
matrix has a user-defined element type or is stored in bitmap or full
format, regardless of the workload estimate; and it returns true only when
the cost estimate `nnz(M) * min(avg_degree(A), avg_degree(B))` (with
`avg_degree = nnz / max(1, nvec)`) makes the GPU-count heuristic report at
least one GPU. -/
theorem cuda_branch_gating (ngpusToUse : ℚ → Nat) (M A B : CudaMat) :
    ((A.typeIsUserDefined = true ∨ B.typeIsUserDefined = true ∨
      A.isBitmap = true ∨ B.isBitmap = true ∨
      A.isFull = true ∨ B.isFull = true) →
      GB_AxB_dot3_cuda_branch ngpusToUse M A B = false) ∧
    (GB_AxB_dot3_cuda_branch ngpusToUse M A B = true →
      0 < ngpusToUse ((M.nnz : ℚ) *
        min ((A.nnz : ℚ) / ((max 1 A.nvec : Nat) : ℚ))
            ((B.nnz : ℚ) / ((max 1 B.nvec : Nat) : ℚ)))) := by
  constructor
  · intro h
    simp only [GB_AxB_dot3_cuda_branch]
    split_ifs with hc
    case pos => rcases h with h | h | h | h | h | h <;> simp [h] at hc
    case neg => rfl
  · intro ht
    simp only [GB_AxB_dot3_cuda_branch] at ht
    split_ifs at ht with hc
    exact hc.1

/-- Witness for C7 at concrete inputs: a user-defined-type operand forces
false, and a returned true implies the heuristic saw positive GPUs. -/
theorem cuda_branch_gating_witness :
    GB_AxB_dot3_cuda_branch (fun _ => 1) cudaSparseEx cudaUdtEx cudaSparseEx
      = false ∧
    0 < (fun _ : ℚ => 1) ((cudaSparseEx.nnz : ℚ) *
        min ((cudaSparseEx.nnz : ℚ) / ((max 1 cudaSparseEx.nvec : Nat) : ℚ))
            ((cudaSparseEx.nnz : ℚ) / ((max 1 cudaSparseEx.nvec : Nat) : ℚ))) :=
  ⟨(cuda_branch_gating (fun _ => 1) cudaSparseEx cudaUdtEx cudaSparseEx).1
      (Or.inl rfl),
   (cuda_branch_gating (fun _ => 1) cudaSparseEx cudaSparseEx cudaSparseEx).2
      (by decide)⟩

/-! ## Claim C2: JIT compile-or-load failures -/

/-- Claim C2 (code bug): on a cache miss with no on-disk artifact, a failure
to write the generated source file makes `GB_AxB_saxpy5_jit` return
`GrB_PANIC` — a hard error — although its own comment says "punt to
generic"; the fall-back-to-generic return is `GrB_NO_VALUE`, as used for
non-jittable semirings. -/
theorem saxpy5_jit_write_failure_panics :
    (GB_AxB_saxpy5_jit_model jitEnvWriteFail).outcome = JitOutcome.panic ∧
    JitOutcome.panic ≠ JitOutcome.noValue := by decide

/-! ## Claim C4: staleness detection -/

/-- Claim C4: a loaded non-built-in artifact whose recorded definitions,
version, or monoid identity/terminal values mismatch the current request —
or whose introspection symbol is missing — is detected as stale, unloaded
(`dlclose`) and recompiled; a stale artifact is never the kernel invoked. -/
theorem jit_stale_artifact_recompiled (env : JitEnv)
    (henc : env.encodable = true) (hmiss : env.cached = false)
    (hload : env.artifactLoads = true) (hnb : env.builtin = false)
    (hbad : env.queryDefnPresent = false ∨ env.versionMatches = false ∨
      env.idtermMatches = false ∨
      ∃ k, env.recordedDefn k ≠ env.currentDefn k) :
    jitArtifactStale env = true ∧
    (GB_AxB_saxpy5_jit_model env).staleUnloaded = true ∧
    ∀ k, (GB_AxB_saxpy5_jit_model env).outcome = JitOutcome.success k →
      k = JitKernelUsed.freshArtifact := by
  have hst : jitArtifactStale env = true := by
    by_contra hfalse
    have hf : jitArtifactStale env = false := by
      simpa using hfalse
    simp only [jitArtifactStale, Bool.or_eq_false_iff, Bool.not_eq_false'] at hf
    obtain ⟨⟨⟨⟨⟨⟨hv, h0⟩, h1⟩, h2⟩, h3⟩, h4⟩, hi⟩ := hf
    simp only [GB_jitifyer_match_defn, Bool.and_eq_true,
      decide_eq_true_eq] at h0 h1 h2 h3 h4
    rcases hbad with h | h | h | ⟨k, hk⟩
    · rw [h] at h0
      exact Bool.noConfusion h0.1
    · rw [h] at hv
      exact Bool.noConfusion hv
    · rw [h] at hi
      exact Bool.noConfusion hi
    · fin_cases k
      · exact hk h0.2
      · exact hk h1.2
      · exact hk h2.2
      · exact hk h3.2
      · exact hk h4.2
  refine ⟨hst, ?_⟩
  cases hsw : env.sourceWriteOk <;> cases hcl : env.compiledLoads <;>
    cases hes : env.entrySymbolOk <;> cases hio : env.insertOk <;>
      simp [GB_AxB_saxpy5_jit_model, jitFinish, henc, hmiss, hload, hnb, hst,
        hsw, hcl, hes, hio]

/-- Witness for C4: concrete environment with a recorded-vs-current
definition mismatch; the artifact is unloaded and (recompilation
succeeding) the invoked kernel is the freshly compiled one. -/
theorem jit_stale_artifact_recompiled_witness :
    jitArtifactStale jitEnvStale = true ∧
    (GB_AxB_saxpy5_jit_model jitEnvStale).staleUnloaded = true ∧
    ∀ k, (GB_AxB_saxpy5_jit_model jitEnvStale).outcome = JitOutcome.success k →
      k = JitKernelUsed.freshArtifact :=
  jit_stale_artifact_recompiled jitEnvStale rfl rfl rfl rfl
    (Or.inr (Or.inr (Or.inr ⟨0, by decide⟩)))

/-! ## Claim C6: allocation-failure cleanup in the selector -/

/-- Claim C6: an allocation failure at any phase of the general selector
path (vector pointers `Cp`, ek-slicing, per-task workspace, positional
workspace `Zp`, output arrays `Ci`/`Cx`, or the compacted hyperlist `Ch`)
aborts the operation, frees every partial allocation including the
partially built output matrix, and returns out-of-memory; the input `A` is
never mutated on a failure path. -/
theorem selector_alloc_failure_frees_all (alloc : AllocBlk → Bool)
    (positional hyperOut inPlaceA : Bool) (s : AllocState)
    (h : selectorGeneralAlloc alloc positional hyperOut inPlaceA =
      SelAllocResult.oom s) :
    s.live = [] ∧ s.cLive = false ∧ s.aMutated = false := by
  unfold selectorGeneralAlloc at h
  split_ifs at h <;>
    (simp only [SelAllocResult.oom.injEq, freeAllSel] at h; subst h;
     exact ⟨rfl, rfl, rfl⟩)

/-- Witness for C6: the oracle that fails exactly the `Ci` allocation
reaches the out-of-memory exit with nothing left allocated. -/
theorem selector_alloc_failure_frees_all_witness :
    (AllocState.live { live := [], cLive := false, aMutated := false }) = [] ∧
    (AllocState.cLive { live := [], cLive := false, aMutated := false }) = false ∧
    (AllocState.aMutated { live := [], cLive := false, aMutated := false }) = false :=
  selector_alloc_failure_frees_all allocFailCi true true false
    { live := [], cLive := false, aMutated := false } (by decide)

/-! ## Claim C8: the bitmap/as-if-full dispatch -/

/-- Claim C8 counterexample: `asIfFullDiagEx` is an as-if-full sparse
matrix and `DIAG` is neither the nonzombie predicate nor an in-place
request, yet the selector does not take the bitmap path — for `DIAG` the
code uses the bitmap selector only when `A` is actually bitmap
(`GB_selector.c` lines 220-227). -/
theorem bitmap_path_claim_ctrex :
    (isBitmapMat asIfFullDiagEx || asIfFull asIfFullDiagEx) = true ∧
    Opcode.diag ≠ Opcode.nonzombie ∧
    selectorPath asIfFullDiagEx Opcode.diag false ≠ SelPath.bitmap ∧
    selectorPath asIfFullDiagEx Opcode.diag false = SelPath.general := by
  decide

/-- Claim C8 (amended): for a bitmap or as-if-full source, a predicate that
is not the nonzombie predicate and not an in-place request, not a
value-only predicate on an iso matrix (which the iso fast path handles
first), and — when the predicate is `DIAG` — storage that is actually
bitmap, the selector takes the per-entry bitmap path and the output stays
in bitmap form. -/
theorem bitmap_path_amended [Inhabited α] (A : SparseMat α) (op : Opcode)
    (keep : Int → Int → α → Bool) (athunk : α) (ithunk : Int)
    (hbm : isBitmapMat A = true ∨ asIfFull A = true)
    (hnz : op ≠ Opcode.nonzombie)
    (hiso : ¬(A.iso = true ∧ op.isValue = true))
    (hdiag : op = Opcode.diag → isBitmapMat A = true) :
    selectorPath A op false = SelPath.bitmap ∧
    (selectorModel A op false keep athunk ithunk).storage = Storage.bitmap := by
  have husel : useSelectorBitmap A op false = true := by
    unfold useSelectorBitmap
    rw [if_neg (by simp [hnz])]
    by_cases hd : op = Opcode.diag
    · rw [if_pos hd]
      exact hdiag hd
    · rw [if_neg hd]
      rcases hbm with h | h <;> simp [h]
  have hisoF : (A.iso && op.isValue) = false := by
    by_cases h : A.iso = true
    · by_cases h2 : op.isValue = true
      · exact absurd ⟨h, h2⟩ hiso
      · simp [Bool.not_eq_true] at h2
        simp [h2]
    · simp [Bool.not_eq_true] at h
      simp [h]
  constructor
  · simp [selectorPath, hisoF, husel]
  · simp [selectorModel, hisoF, husel, bitmapSelect]

/-- Witness for C8 (amended) on a concrete bitmap matrix with the `TRIL`
predicate. -/
theorem bitmap_path_amended_witness :
    selectorPath bitmapEx Opcode.tril false = SelPath.bitmap ∧
    (selectorModel bitmapEx Opcode.tril false (fun i j _ => decide (j ≤ i)) 0
      0).storage = Storage.bitmap :=
  bitmap_path_amended bitmapEx Opcode.tril (fun i j _ => decide (j ≤ i)) 0 0
    (Or.inl (by decide)) (by decide) (by decide) (by decide)

/-! ## Claim C3: the iso fast path -/

/-- Claim C3: for an iso source matrix and a predicate that depends only on
the stored value, the selector takes the iso fast path, evaluates the
predicate exactly once on the single stored value, and returns a shallow
copy of `A` (with all of `A`'s entries) when the value satisfies the
predicate, and an empty matrix of `A`'s shape otherwise — never evaluating
entries individually. -/
theorem iso_fast_path [Inhabited α] (A : SparseMat α) (op : Opcode)
    (keep : Int → Int → α → Bool) (athunk : α) (ithunk : Int)
    (hiso : A.iso = true) (hval : op.isValue = true) :
    selectorPath A op false = SelPath.isoFast ∧
    selectorEvalCount A op false = 1 ∧
    (keep 0 0 A.isoVal = true →
      selectorModel A op false keep athunk ithunk = shallowCopy A ∧
      (selectorModel A op false keep athunk ithunk).anz = A.anz) ∧
    (keep 0 0 A.isoVal = false →
      (selectorModel A op false keep athunk ithunk).anz = 0 ∧
      (selectorModel A op false keep athunk ithunk).vlen = A.vlen ∧
      (selectorModel A op false keep athunk ithunk).vdim = A.vdim) := by
  have hpath : selectorPath A op false = SelPath.isoFast := by
    simp [selectorPath, hiso, hval]
  refine ⟨hpath, ?_, ?_, ?_⟩
  · simp [selectorEvalCount, hpath]
  · intro hk
    simp [selectorModel, hiso, hval, hk, shallowCopy]
  · intro hk
    simp [selectorModel, hiso, hval, hk, emptyLike, SparseMat.anz]

/-- Witness for C3 on a concrete iso matrix with stored value 5 and the
predicates "value ≤ 9" (keep all) and "value ≤ 4" (keep none). -/
theorem iso_fast_path_witness :
    selectorPath isoEx Opcode.valuele false = SelPath.isoFast ∧
    selectorEvalCount isoEx Opcode.valuele false = 1 ∧
    selectorModel isoEx Opcode.valuele false (fun _ _ v => decide (v ≤ 9)) 0 0
      = shallowCopy isoEx ∧
    (selectorModel isoEx Opcode.valuele false (fun _ _ v => decide (v ≤ 4)) 0
      0).anz = 0 :=
  ⟨(iso_fast_path isoEx Opcode.valuele (fun _ _ v => decide (v ≤ 9)) 0 0
      rfl rfl).1,
   (iso_fast_path isoEx Opcode.valuele (fun _ _ v => decide (v ≤ 9)) 0 0
      rfl rfl).2.1,
   ((iso_fast_path isoEx Opcode.valuele (fun _ _ v => decide (v ≤ 9)) 0 0
      rfl rfl).2.2.1 (by decide)).1,
   ((iso_fast_path isoEx Opcode.valuele (fun _ _ v => decide (v ≤ 4)) 0 0
      rfl rfl).2.2.2 (by decide)).1⟩

/-! ## Claim C9: jumbled-flag preservation -/

/-- Helper: `COLINDEX` preserves the jumbled flag of a non-jumbled input. -/
theorem colSelectColIndex_jumbled [Inhabited α] (A : SparseMat α)
    (ithunk : Int) (hj : A.jumbled = false) :
    (colSelectColIndex A ithunk).jumbled = A.jumbled := by
  simp only [colSelectColIndex]
  split_ifs <;> simp [shallowCopy, emptyLike, hj]

/-- Helper: `COLLE` preserves the jumbled flag of a non-jumbled input. -/
theorem colSelectColLE_jumbled [Inhabited α] (A : SparseMat α)
    (ithunk : Int) (hj : A.jumbled = false) :
    (colSelectColLE A ithunk).jumbled = A.jumbled := by
  simp only [colSelectColLE]
  split_ifs <;> simp [shallowCopy, emptyLike, hj]

/-- Helper: `COLGT` preserves the jumbled flag of a non-jumbled input. -/
theorem colSelectColGT_jumbled [Inhabited α] (A : SparseMat α)
    (ithunk : Int) (hj : A.jumbled = false) :
    (colSelectColGT A ithunk).jumbled = A.jumbled := by
  simp only [colSelectColGT]
  split_ifs <;> simp [shallowCopy, emptyLike, hj]

/-- Claim C9: every sparse/hypersparse selector path — the column
selectors, the general two-phase path producing a new matrix, and in-place
selection — marks the output jumbled exactly when the input was jumbled
(`GB_selector.c` lines 534, 826, 888); positional selectors are only
invoked on non-jumbled inputs (the assertion at line 69), covering the
column path's empty-result shortcut. -/
theorem selector_preserves_jumbled [Inhabited α] (A : SparseMat α)
    (op : Opcode) (keep : Int → Int → α → Bool) (athunk : α) (ithunk : Int)
    (hpos : op.isPositional = true → A.jumbled = false) :
    (op.isCol = true → (colSelect A op ithunk).jumbled = A.jumbled) ∧
    (generalSelect A op keep athunk).jumbled = A.jumbled ∧
    (generalSelectInPlace A op keep athunk).jumbled = A.jumbled := by
  refine ⟨?_, ?_, ?_⟩
  · intro hcol
    have hj : A.jumbled = false := by
      apply hpos
      cases op <;> simp_all [Opcode.isCol, Opcode.isPositional]
    cases op <;> simp only [Opcode.isCol] at hcol <;>
      first
        | exact Bool.noConfusion hcol
        | exact colSelectColIndex_jumbled A ithunk hj
        | exact colSelectColLE_jumbled A ithunk hj
        | exact colSelectColGT_jumbled A ithunk hj
  · cases hh : A.h <;> simp [generalSelect, hh]
  · cases hh : A.h <;> simp [generalSelectInPlace, generalSelect, hh]

/-- Witness for C9 on the concrete 5-vector sparse matrix. -/
theorem selector_preserves_jumbled_witness :
    (colSelect colEx Opcode.colle 2).jumbled = colEx.jumbled ∧
    (generalSelect colEx Opcode.colle (fun _ j _ => decide (j ≤ 2))
      0).jumbled = colEx.jumbled ∧
    (generalSelectInPlace colEx Opcode.colle (fun _ j _ => decide (j ≤ 2))
      0).jumbled = colEx.jumbled :=
  ⟨(selector_preserves_jumbled colEx Opcode.colle
      (fun _ j _ => decide (j ≤ 2)) 0 2 (fun _ => rfl)).1 rfl,
   (selector_preserves_jumbled colEx Opcode.colle
      (fun _ j _ => decide (j ≤ 2)) 0 2 (fun _ => rfl)).2.1,
   (selector_preserves_jumbled colEx Opcode.colle
      (fun _ j _ => decide (j ≤ 2)) 0 2 (fun _ => rfl)).2.2⟩

/-! ## Claim C10: column selectors over the full thunk range -/

/-- Out-of-range guard: a negative target column is treated as absent,
before any search. -/
theorem colFind_neg (A : SparseMat α) (j : Int) (h : j < 0) :
    colFind A j = (0, false) := by
  simp [colFind, h]

/-- Out-of-range guard: a target column at or beyond `avdim` is treated as
absent, before any search. -/
theorem colFind_ge (A : SparseMat α) (j : Int) (h : (A.vdim : Int) ≤ j) :
    colFind A j = (A.nvec, false) := by
  have hnlt : ¬j < 0 := by
    have := Int.natCast_nonneg A.vdim
    omega
  simp [colFind, hnlt, h]

/-- Claim C10: the column selectors are total over the whole `int64` thunk
range: an out-of-range target column is guarded (no search, no offset
indexing) and treated as absent, so deleting an out-of-range column
(`COLINDEX`, target `j = -ithunk`) yields a pure shallow copy with all
entries, and selecting columns `≤ j` for negative `j` yields an empty
matrix of `A`'s shape and type. -/
theorem col_selector_out_of_range [Inhabited α] (A : SparseMat α)
    (ithunk : Int) (hp0 : A.p.getD 0 0 = 0) :
    ((-ithunk < 0 ∨ (A.vdim : Int) ≤ -ithunk) →
      colSelect A Opcode.colindex ithunk = shallowCopy A) ∧
    (ithunk < 0 →
      (colSelect A Opcode.colle ithunk).anz = 0 ∧
      (colSelect A Opcode.colle ithunk).vlen = A.vlen ∧
      (colSelect A Opcode.colle ithunk).vdim = A.vdim) := by
  constructor
  · intro h
    rcases h with h | h
    · simp [colSelect, colSelectColIndex, colFind_neg A _ h, shallowCopy]
    · simp [colSelect, colSelectColIndex, colFind_ge A _ h, shallowCopy]
  · intro h
    have hcf : colFind A ithunk = (0, false) := colFind_neg A _ h
    by_cases hz : A.p.getD A.nvec 0 = 0
    · have hres : colSelect A Opcode.colle ithunk = shallowCopy A := by
        simp [colSelect, colSelectColLE, hcf, hp0, hz,
          -List.getD_eq_getElem?_getD]
      rw [hres]
      exact ⟨hz, rfl, rfl⟩
    · have hz2 : ¬(0 = A.p.getD A.nvec 0) := fun hh => hz hh.symm
      have hres : colSelect A Opcode.colle ithunk = emptyLike A := by
        simp [colSelect, colSelectColLE, hcf, hp0, hz2,
          -List.getD_eq_getElem?_getD]
      rw [hres]
      exact ⟨rfl, rfl, rfl⟩

/-- Witness for C10 on the concrete 5-vector matrix (`avdim = 5`): deleting
column 7 returns the shallow copy; columns `≤ -3` returns an empty result. -/
theorem col_selector_out_of_range_witness :
    colSelect colEx Opcode.colindex (-7) = shallowCopy colEx ∧
    (colSelect colEx Opcode.colle (-3)).anz = 0 ∧
    (colSelect colEx Opcode.colle (-3)).vlen = colEx.vlen ∧
    (colSelect colEx Opcode.colle (-3)).vdim = colEx.vdim :=
  ⟨(col_selector_out_of_range colEx (-7) (by decide)).1 (Or.inr (by decide)),
   (col_selector_out_of_range colEx (-3) (by decide)).2 (by decide)⟩

/-! ## Claim C1: correctness of the general two-phase path -/

/-- Helper: reading a one-element extension at the join point. -/
theorem getD_append_singleton (l : List Nat) (a : Nat) :
    (l ++ [a]).getD l.length 0 = a := by
  induction l with
  | nil => rfl
  | cons b t ih =>
      simp only [List.cons_append, List.length_cons, List.getD_cons_succ]
      exact ih

/-- Helper: the vector-major concatenation of the first `m` vectors of a
well-formed matrix is the prefix of the entry arrays up to `Ap [m]`. -/
theorem vecEntries_flatten [Inhabited α] (A : SparseMat α) (hwf : A.wf) :
    ∀ m, m ≤ A.nvec →
      ((List.range m).map A.vecEntries).flatten =
        (A.i.zip A.vals).take (A.p.getD m 0) := by
  obtain ⟨hplen, hp0, hmono, hilen, hxlen, hb, hhyp⟩ := hwf
  intro m
  induction m with
  | zero =>
      intro _
      rw [List.range_zero]
      simp only [List.map_nil, List.flatten_nil]
      rw [hp0, List.take_zero]
  | succ m ih =>
      intro hm
      have hmlt : m < A.nvec := hm
      have hle := hmono m hmlt
      rw [List.range_succ, List.map_append, List.flatten_append,
        ih (Nat.le_of_lt hmlt)]
      simp only [List.map_cons, List.map_nil, List.flatten_cons,
        List.flatten_nil, List.append_nil]
      unfold SparseMat.vecEntries
      rw [List.drop_take, ← List.take_add,
        Nat.add_sub_cancel' hle]

/-- Helper: the phase-1 per-vector counts are the chunk lengths. -/
theorem selectedChunks_lengths [Inhabited α] (A : SparseMat α)
    (keep : Int → Int → α → Bool) :
    (selectedChunks A keep).map List.length = phase1Counts A keep := by
  simp [selectedChunks, phase1Counts, List.map_map, Function.comp_def,
    List.countP_eq_length_filter]

/-- Helper: `Cp [anvec]` after the prefix sum is the total phase-1 count. -/
theorem generalCp_total [Inhabited α] (A : SparseMat α)
    (keep : Int → Int → α → Bool) :
    (generalCp A keep).getD A.nvec 0 = (phase1Counts A keep).sum := by
  have hcnt : (phase1Counts A keep).length = A.nvec := by simp [phase1Counts]
  unfold generalCp
  rw [← hcnt, prefixSums_total]

/-- Helper: the phase-2 buffer is the concatenated chunks followed by the
untouched slack slot. -/
theorem generalOut_eq [Inhabited α] (A : SparseMat α)
    (keep : Int → Int → α → Bool) :
    generalOut A keep = (selectedChunks A keep).flatten ++
      (List.replicate (max ((generalCp A keep).getD A.nvec 0) 1)
        ((0 : Int), (default : α))).drop
          ((selectedChunks A keep).map List.length).sum := by
  unfold generalOut
  have hps : generalCp A keep =
      prefixSums ((selectedChunks A keep).map List.length) := by
    unfold generalCp
    rw [selectedChunks_lengths]
  rw [hps, phase2Scatter_join]

/-- Helper: the first `Cp [anvec]` slots of the phase-2 buffer are exactly
the concatenated retained chunks. -/
theorem generalOut_take [Inhabited α] (A : SparseMat α)
    (keep : Int → Int → α → Bool) :
    (generalOut A keep).take ((generalCp A keep).getD A.nvec 0) =
      (selectedChunks A keep).flatten := by
  have hsum : ((selectedChunks A keep).map List.length).sum =
      (generalCp A keep).getD A.nvec 0 := by
    rw [selectedChunks_lengths, generalCp_total]
  rw [generalOut_eq,
    show (generalCp A keep).getD A.nvec 0 =
      (selectedChunks A keep).flatten.length by
        rw [List.length_flatten, hsum],
    List.take_left]

/-- Helper: the phase-2 buffer has `max (Cp [anvec]) 1` slots. -/
theorem generalOut_length [Inhabited α] (A : SparseMat α)
    (keep : Int → Int → α → Bool) :
    (generalOut A keep).length =
      max ((generalCp A keep).getD A.nvec 0) 1 := by
  have hsum : ((selectedChunks A keep).map List.length).sum =
      (generalCp A keep).getD A.nvec 0 := by
    rw [selectedChunks_lengths, generalCp_total]
  rw [generalOut_eq, List.length_append, List.length_flatten, hsum,
    List.length_drop, List.length_replicate]
  omega

/-- Helper: the concatenated chunks are the filtered `(row, col, value)`
traversal of `A`, projected to `(row, value)`. -/
theorem selectedChunks_filter [Inhabited α] (A : SparseMat α)
    (keep : Int → Int → α → Bool) :
    (A.fullEntries.filter (fun t => keep t.1 t.2.1 t.2.2)).map
        (fun t => (t.1, t.2.2)) =
      (selectedChunks A keep).flatten := by
  unfold SparseMat.fullEntries selectedChunks
  rw [List.filter_flatten, List.map_flatten, List.map_map, List.map_map]
  congr 1
  apply List.map_congr_left
  intro k _
  simp only [Function.comp_def, List.filter_map, List.map_map]
  simp

/-- Helper: the row-index array of the general path's result is the first
components of the phase-2 buffer, for both sparse and hypersparse inputs. -/
theorem generalSelect_i [Inhabited α] (A : SparseMat α) (op : Opcode)
    (keep : Int → Int → α → Bool) (athunk : α) :
    (generalSelect A op keep athunk).i = (generalOut A keep).map Prod.fst := by
  cases hh : A.h <;> simp [generalSelect, hh]

/-- Helper: the value array of the general path's result. -/
theorem generalSelect_x [Inhabited α] (A : SparseMat α) (op : Opcode)
    (keep : Int → Int → α → Bool) (athunk : α) :
    (generalSelect A op keep athunk).x =
      (if A.iso || op = Opcode.valueeq then
        [if op = Opcode.valueeq then athunk else A.isoVal]
      else (generalOut A keep).map Prod.snd) := by
  cases hh : A.h <;> simp [generalSelect, hh]

/-- Helper: the iso flag of the general path's result (line 198). -/
theorem generalSelect_iso [Inhabited α] (A : SparseMat α) (op : Opcode)
    (keep : Int → Int → α → Bool) (athunk : α) :
    (generalSelect A op keep athunk).iso =
      (A.iso || op = Opcode.valueeq) := by
  cases hh : A.h <;> simp [generalSelect, hh]

/-- Helper: the result's entry count is `Cp [anvec]`, including after the
hyperlist prune (which appends the total as the final vector pointer). -/
theorem generalSelect_anz [Inhabited α] (A : SparseMat α) (op : Opcode)
    (keep : Int → Int → α → Bool) (athunk : α) :
    (generalSelect A op keep athunk).anz =
      (generalCp A keep).getD A.nvec 0 := by
  cases hh : A.h with
  | none => simp [generalSelect, hh, SparseMat.anz]
  | some ah =>
      simp only [generalSelect, hh, SparseMat.anz, hyperPrune]
      rw [show (List.map (fun k => ah.getD k 0)
            ((List.range A.nvec).filter
              (fun k => (generalCp A keep).getD k 0 <
                (generalCp A keep).getD (k+1) 0))).length =
          (List.map (fun k => (generalCp A keep).getD k 0)
            ((List.range A.nvec).filter
              (fun k => (generalCp A keep).getD k 0 <
                (generalCp A keep).getD (k+1) 0))).length by
        simp]
      exact getD_append_singleton _ _

/-- Helper: zipping first components against a replicated constant
reconstitutes the pairs with that constant in second position. -/
theorem zip_map_fst_replicate [Inhabited α] :
    ∀ (l : List (Int × α)) (n : Nat) (c : α), n ≤ l.length →
      ((l.map Prod.fst).zip (List.replicate n c)).take n =
        (l.take n).map (fun e => (e.1, c)) := by
  intro l
  induction l with
  | nil =>
      intro n c hn
      match n, hn with
      | 0, _ => rfl
  | cons a t ih =>
      intro n c hn
      match n with
      | 0 => rfl
      | (m+1) =>
          simp only [List.map_cons, List.replicate_succ, List.zip_cons_cons,
            List.take_succ_cons]
          rw [ih m c (by simpa using hn)]

/-- Helper: a list whose second components all equal `c` is unchanged by
overwriting them with `c`. -/
theorem map_const_snd [Inhabited α] (c : α) :
    ∀ (l : List (Int × α)), (∀ e ∈ l, e.2 = c) →
      l.map (fun e => (e.1, c)) = l := by
  intro l
  induction l with
  | nil => intro _; rfl
  | cons a t ih =>
      intro hmem
      have ha : a.2 = c := hmem a (List.mem_cons_self a t)
      simp only [List.map_cons]
      rw [ih (fun e he => hmem e (List.mem_cons_of_mem a he)), ← ha,
        Prod.mk.eta]

/-- Helper: every entry of a well-formed iso matrix's vector slices carries
the iso value. -/
theorem mem_vecEntries_iso_val [Inhabited α] (A : SparseMat α)
    (hiso : A.iso = true) (k : Nat) (e : Int × α)
    (he : e ∈ A.vecEntries k) : e.2 = A.isoVal := by
  have hzz : e ∈ A.i.zip A.vals := by
    unfold SparseMat.vecEntries at he
    exact List.mem_of_mem_take (List.mem_of_mem_drop he)
  have := List.of_mem_zip (show (e.1, e.2) ∈ A.i.zip A.vals by
    rw [Prod.mk.eta]; exact hzz)
  have hv : e.2 ∈ A.vals := this.2
  unfold SparseMat.vals at hv
  rw [hiso] at hv
  simp only [if_true] at hv
  exact List.eq_of_mem_replicate hv

/-- Helper: the general path's output entries are the concatenation of the
per-vector retained chunks.  (For a `VALUEEQ` result, which is stored iso,
the hypothesis records that retained values equal the cast thunk.) -/
theorem generalSelect_flatEntries [Inhabited α] (A : SparseMat α)
    (op : Opcode) (keep : Int → Int → α → Bool) (athunk : α)
    (hveq : op = Opcode.valueeq → ∀ i j v, keep i j v = true → v = athunk) :
    (generalSelect A op keep athunk).flatEntries =
      (selectedChunks A keep).flatten := by
  have hanz := generalSelect_anz A op keep athunk
  unfold SparseMat.flatEntries
  rw [generalSelect_i, hanz]
  by_cases hciso : (A.iso || op = Opcode.valueeq) = true
  · -- the output is iso: its single stored value is shared by all entries
    have hx := generalSelect_x A op keep athunk
    rw [if_pos hciso] at hx
    have hvals : (generalSelect A op keep athunk).vals =
        List.replicate ((generalCp A keep).getD A.nvec 0)
          (if op = Opcode.valueeq then athunk else A.isoVal) := by
      unfold SparseMat.vals SparseMat.isoVal
      rw [generalSelect_iso A op keep athunk, hx, hanz]
      simp [hciso, SparseMat.isoVal]
    rw [hvals, zip_map_fst_replicate _ _ _
        (by rw [generalOut_length]; exact le_max_left _ _),
      generalOut_take]
    apply map_const_snd
    intro e he
    obtain ⟨l, hl, hel⟩ := List.mem_flatten.mp he
    obtain ⟨k, hk, rfl⟩ := List.mem_map.mp hl
    have hef := List.mem_filter.mp hel
    by_cases hveqc : op = Opcode.valueeq
    · rw [if_pos hveqc]
      exact hveq hveqc e.1 (A.colOf k) e.2 hef.2
    · rw [if_neg hveqc]
      have hiso : A.iso = true := by
        rcases Bool.or_eq_true_iff.mp hciso with h | h
        · exact h
        · exact absurd (of_decide_eq_true h) hveqc
      exact mem_vecEntries_iso_val A hiso k e hef.1
  · -- the output is not iso: values are carried through the buffer
    have hx := generalSelect_x A op keep athunk
    rw [if_neg (by simpa using hciso)] at hx
    have hvals : (generalSelect A op keep athunk).vals =
        (generalOut A keep).map Prod.snd := by
      unfold SparseMat.vals
      rw [generalSelect_iso A op keep athunk, hx]
      simp only [Bool.not_eq_true] at hciso
      rw [hciso]
      simp
    rw [hvals, List.zip_map', ]
    have : List.map (fun a : Int × α => (a.1, a.2)) (generalOut A keep) =
        generalOut A keep := by
      simp
    rw [this, generalOut_take]

/-- Claim C1: for every sparse or hypersparse source and every predicate on
the general two-phase path, the output contains, in vector-major then entry
order, exactly the subsequence of `A`'s entries satisfying the predicate,
and the number of output entries is the sum of the phase-1 per-vector
counts, i.e. `Cp [anvec]` after the prefix sum.  (For a `VALUEEQ` result,
which is stored iso, the hypothesis records that retained values equal the
cast thunk.) -/
theorem general_two_phase_correct [Inhabited α] (A : SparseMat α)
    (op : Opcode) (keep : Int → Int → α → Bool) (athunk : α)
    (hwf : A.wf)
    (hveq : op = Opcode.valueeq → ∀ i j v, keep i j v = true → v = athunk) :
    (generalSelect A op keep athunk).flatEntries =
      (A.fullEntries.filter (fun t => keep t.1 t.2.1 t.2.2)).map
        (fun t => (t.1, t.2.2)) ∧
    (generalSelect A op keep athunk).anz = (phase1Counts A keep).sum ∧
    (generalCp A keep).getD A.nvec 0 = (phase1Counts A keep).sum ∧
    ((List.range A.nvec).map A.vecEntries).flatten = A.flatEntries := by
  have htot := generalCp_total A keep
  have hanz := generalSelect_anz A op keep athunk
  refine ⟨?_, by rw [hanz, htot], htot,
    by rw [vecEntries_flatten A hwf A.nvec le_rfl]; rfl⟩
  rw [generalSelect_flatEntries A op keep athunk hveq, selectedChunks_filter]

/-- Witness for C1 on the concrete 5-vector sparse matrix with the
value predicate "value ≥ 20". -/
theorem general_two_phase_correct_witness :
    (generalSelect colEx Opcode.valuele (fun _ _ v => decide (20 ≤ v))
        0).flatEntries =
      (colEx.fullEntries.filter (fun t => decide (20 ≤ t.2.2))).map
        (fun t => (t.1, t.2.2)) ∧
    (generalSelect colEx Opcode.valuele (fun _ _ v => decide (20 ≤ v))
        0).anz =
      (phase1Counts colEx (fun _ _ v => decide (20 ≤ v))).sum ∧
    (generalCp colEx (fun _ _ v => decide (20 ≤ v))).getD colEx.nvec 0 =
      (phase1Counts colEx (fun _ _ v => decide (20 ≤ v))).sum ∧
    ((List.range colEx.nvec).map colEx.vecEntries).flatten =
      colEx.flatEntries :=
  general_two_phase_correct colEx Opcode.valuele
    (fun _ _ v => decide (20 ≤ v)) 0 (by decide) (fun h => nomatch h)

/-! ## Claim C5: the column path matches the general path -/

/-- Helper: zipping commutes with `take`. -/
theorem zip_take_take {γ δ : Type} :
    ∀ (l : List γ) (l2 : List δ) (n : Nat),
      (l.zip l2).take n = (l.take n).zip (l2.take n) := by
  intro l
  induction l with
  | nil =>
      intro l2 n
      simp
  | cons a t ih =>
      intro l2 n
      cases l2 with
      | nil => simp
      | cons b t2 =>
          cases n with
          | zero => rfl
          | succ m => simp [List.zip_cons_cons, ih]

/-- Helper: the vector pointers of a well-formed matrix are monotone across
any span. -/
theorem p_mono_le (A : SparseMat α)
    (hmono : ∀ k, k < A.nvec → A.p.getD k 0 ≤ A.p.getD (k+1) 0) :
    ∀ b, b ≤ A.nvec → ∀ a, a ≤ b → A.p.getD a 0 ≤ A.p.getD b 0 := by
  intro b
  induction b with
  | zero =>
      intro _ a ha
      rw [Nat.le_zero.mp ha]
  | succ m ih =>
      intro hb a ha
      rcases Nat.lt_or_ge a (m+1) with h | h
      · exact le_trans (ih (Nat.le_of_succ_le hb) a (Nat.lt_succ_iff.mp h))
          (hmono m (Nat.lt_of_succ_le hb))
      · rw [Nat.le_antisymm ha h]

/-- Helper: the expanded values list of a well-formed matrix has one value
per entry. -/
theorem vals_length [Inhabited α] (A : SparseMat α) (hwf : A.wf) :
    A.vals.length = A.anz := by
  obtain ⟨-, -, -, -, hxlen, -, -⟩ := hwf
  unfold SparseMat.vals
  by_cases hiso : A.iso = true
  · simp [hiso]
  · simp only [Bool.not_eq_true] at hiso
    rw [hiso] at hxlen ⊢
    simpa using hxlen

/-- Helper: for a sparse (non-hypersparse) matrix and an in-range target,
the column lookup indexes directly and always succeeds (line 328-332). -/
theorem colFind_sparse_found (A : SparseMat α) (jt : Int) (hh : A.h = none)
    (h0 : 0 ≤ jt) (hj : jt < (A.vdim : Int)) :
    colFind A jt = (jt.toNat, true) := by
  unfold colFind
  rw [if_neg (by omega), if_neg (by omega), hh]

/-- Helper: the `COLLE` column selector on a sparse matrix with the target
column present, in solved form. -/
theorem colSelectColLE_found_eq [Inhabited α] (A : SparseMat α) (jt : Int)
    (hcf : colFind A jt = (jt.toNat, true)) (hh : A.h = none) :
    colSelectColLE A jt =
      (if A.p.getD (jt.toNat + 1) 0 = A.p.getD A.nvec 0 then shallowCopy A
       else if A.p.getD (jt.toNat + 1) 0 = 0 then emptyLike A
       else
         { vlen := A.vlen, vdim := A.vdim, nvec := A.nvec,
           p := A.p.take (jt.toNat + 2) ++
             List.replicate (A.nvec - (jt.toNat + 1))
               (A.p.getD (jt.toNat + 1) 0),
           h := none, i := A.i.take (A.p.getD (jt.toNat + 1) 0),
           x := if A.iso then [A.isoVal]
             else A.x.take (A.p.getD (jt.toNat + 1) 0),
           b := [], storage := Storage.sparse, iso := A.iso,
           jumbled := A.jumbled, nzombies := 0, pending := false }) := by
  simp [colSelectColLE, hcf, hh]

/-- Helper: the `COLLE` column path yields exactly the array prefix up to
`Ap [j+1]` — built by bulk prefix copies — and that entry count. -/
theorem colSelectColLE_entries [Inhabited α] (A : SparseMat α) (jt : Int)
    (hwf : A.wf) (hh : A.h = none) (h0 : 0 ≤ jt) (hj : jt < (A.vdim : Int)) :
    (colSelectColLE A jt).flatEntries =
      (A.i.zip A.vals).take (A.p.getD (jt.toNat + 1) 0) ∧
    (colSelectColLE A jt).anz = A.p.getD (jt.toNat + 1) 0 := by
  obtain ⟨hplen, hp0, hmono, hilen, hxlen, hb, hhyp⟩ := hwf
  have hnv : A.nvec = A.vdim := by
    rw [hh] at hhyp
    exact hhyp.2
  have hkT : jt.toNat < A.nvec := by
    rw [hnv]
    exact (Int.toNat_lt h0).mpr hj
  have hcf := colFind_sparse_found A jt hh h0 hj
  rw [colSelectColLE_found_eq A jt hcf hh]
  have hcle : A.p.getD (jt.toNat + 1) 0 ≤ A.p.getD A.nvec 0 :=
    p_mono_le A hmono A.nvec le_rfl (jt.toNat + 1) hkT
  split_ifs with h1 h2 hx
  · -- everything retained: pure shallow copy
    constructor
    · unfold shallowCopy SparseMat.flatEntries
      rw [show A.anz = A.p.getD A.nvec 0 from rfl, ← h1]
    · exact h1.symm
  · -- nothing retained: empty result
    constructor
    · rw [h2]
      simp [emptyLike, SparseMat.flatEntries, SparseMat.anz]
    · rw [h2]
      simp [emptyLike, SparseMat.anz]
  · -- proper prefix, iso input: arrays built by bulk copies
    have hk1 : jt.toNat + 1 < A.nvec := by
      rcases Nat.lt_or_ge (jt.toNat + 1) A.nvec with h | h
      · exact h
      · exfalso
        apply h1
        rw [show jt.toNat + 1 = A.nvec by omega]
    have hanzb : (A.p.take (jt.toNat + 2) ++
        List.replicate (A.nvec - (jt.toNat + 1))
          (A.p.getD (jt.toNat + 1) 0)).getD A.nvec 0 =
        A.p.getD (jt.toNat + 1) 0 := by
      have hlt : (A.p.take (jt.toNat + 2)).length = jt.toNat + 2 := by
        rw [List.length_take]
        omega
      rw [List.getD_append_right _ _ _ _ (by omega), hlt]
      have hidx : A.nvec - (jt.toNat + 2) <
          (List.replicate (A.nvec - (jt.toNat + 1))
            (A.p.getD (jt.toNat + 1) 0)).length := by
        rw [List.length_replicate]
        omega
      rw [List.getD_eq_getElem _ _ hidx]
      exact List.getElem_replicate _ _
    constructor
    · simp only [SparseMat.flatEntries, SparseMat.anz, SparseMat.vals,
        SparseMat.isoVal]
      rw [hanzb, hx]
      simp only [if_true, List.headD_cons]
      rw [List.take_of_length_le
          (by
            rw [List.length_zip, List.length_take, List.length_replicate]
            omega),
        zip_take_take, List.take_replicate]
      rw [show A.p.getD (jt.toNat + 1) 0 ⊓ A.p.getD A.nvec 0 =
          A.p.getD (jt.toNat + 1) 0 by omega]
    · simp only [SparseMat.anz]
      exact hanzb
  · -- proper prefix, non-iso input: arrays built by bulk copies
    have hk1 : jt.toNat + 1 < A.nvec := by
      rcases Nat.lt_or_ge (jt.toNat + 1) A.nvec with h | h
      · exact h
      · exfalso
        apply h1
        rw [show jt.toNat + 1 = A.nvec by omega]
    have hanzb : (A.p.take (jt.toNat + 2) ++
        List.replicate (A.nvec - (jt.toNat + 1))
          (A.p.getD (jt.toNat + 1) 0)).getD A.nvec 0 =
        A.p.getD (jt.toNat + 1) 0 := by
      have hlt : (A.p.take (jt.toNat + 2)).length = jt.toNat + 2 := by
        rw [List.length_take]
        omega
      rw [List.getD_append_right _ _ _ _ (by omega), hlt]
      have hidx : A.nvec - (jt.toNat + 2) <
          (List.replicate (A.nvec - (jt.toNat + 1))
            (A.p.getD (jt.toNat + 1) 0)).length := by
        rw [List.length_replicate]
        omega
      rw [List.getD_eq_getElem _ _ hidx]
      exact List.getElem_replicate _ _
    have hisof : A.iso = false := by
      simpa using hx
    constructor
    · simp only [SparseMat.flatEntries, SparseMat.anz, SparseMat.vals,
        SparseMat.isoVal]
      rw [hanzb, hisof]
      simp only [Bool.false_eq_true, if_false]
      rw [← zip_take_take, List.take_take]
      rw [Nat.min_self]
    · simp only [SparseMat.anz]
      exact hanzb

/-- Helper: the general path's retained chunks for the "column ≤ j"
predicate concatenate to the same array prefix up to `Ap [j+1]`. -/
theorem selectedChunks_colle_flatten [Inhabited α] (A : SparseMat α)
    (jt : Int) (hwf : A.wf) (hh : A.h = none) (h0 : 0 ≤ jt)
    (hj : jt < (A.vdim : Int)) :
    (selectedChunks A (fun _ j _ => decide (j ≤ jt))).flatten =
      (A.i.zip A.vals).take (A.p.getD (jt.toNat + 1) 0) := by
  have hw := hwf
  obtain ⟨hplen, hp0, hmono, hilen, hxlen, hb, hhyp⟩ := hw
  have hnv : A.nvec = A.vdim := by
    rw [hh] at hhyp
    exact hhyp.2
  have hkT : jt.toNat < A.nvec := by
    rw [hnv]
    exact (Int.toNat_lt h0).mpr hj
  have hjt : (jt.toNat : Int) = jt := Int.toNat_of_nonneg h0
  unfold selectedChunks
  have hrange : List.range A.nvec =
      List.range (jt.toNat + 1) ++
        (List.range (A.nvec - (jt.toNat + 1))).map ((jt.toNat + 1) + ·) := by
    rw [← List.range_add]
    congr 1
    omega
  rw [hrange, List.map_append, List.flatten_append]
  have hfirst : (List.range (jt.toNat + 1)).map
        (fun k => (A.vecEntries k).filter
          (fun e => decide (A.colOf k ≤ jt))) =
      (List.range (jt.toNat + 1)).map A.vecEntries := by
    apply List.map_congr_left
    intro k hk
    have hklt := List.mem_range.mp hk
    have hcol : A.colOf k = (k : Int) := by
      simp [SparseMat.colOf, hh]
    have hkle : ((k : Int)) ≤ jt := by
      rw [← hjt]
      exact_mod_cast Nat.lt_succ_iff.mp hklt
    simp [hcol, hkle]
  rw [hfirst]
  have hsecond : ((List.range (A.nvec - (jt.toNat + 1))).map
        ((jt.toNat + 1) + ·)).map
        (fun k => (A.vecEntries k).filter
          (fun e => decide (A.colOf k ≤ jt))) =
      (List.range (A.nvec - (jt.toNat + 1))).map
        (fun _ => ([] : List (Int × α))) := by
    rw [List.map_map]
    apply List.map_congr_left
    intro k2 hk2
    simp only [Function.comp_def]
    have hcol : A.colOf ((jt.toNat + 1) + k2) =
        (((jt.toNat + 1) + k2 : Nat) : Int) := by
      simp [SparseMat.colOf, hh]
    have hdec : decide ((((jt.toNat + 1) + k2 : Nat) : Int) ≤ jt) = false := by
      apply decide_eq_false
      intro hcon
      rw [← hjt] at hcon
      push_cast at hcon
      omega
    simp only [hcol, hdec]
    exact List.filter_false _
  rw [hsecond]
  have hnil : ((List.range (A.nvec - (jt.toNat + 1))).map
      (fun _ => ([] : List (Int × α)))).flatten = [] := by
    simp
  rw [hnil, List.append_nil]
  exact vecEntries_flatten A hwf (jt.toNat + 1) hkT

/-- Helper: the general path on the "column ≤ j" predicate yields the same
array prefix and entry count. -/
theorem generalSelect_colle_entries [Inhabited α] (A : SparseMat α)
    (jt : Int) (athunk : α) (hwf : A.wf) (hh : A.h = none) (h0 : 0 ≤ jt)
    (hj : jt < (A.vdim : Int)) :
    (generalSelect A Opcode.colle (fun _ j _ => decide (j ≤ jt))
        athunk).flatEntries =
      (A.i.zip A.vals).take (A.p.getD (jt.toNat + 1) 0) ∧
    (generalSelect A Opcode.colle (fun _ j _ => decide (j ≤ jt))
        athunk).anz = A.p.getD (jt.toNat + 1) 0 := by
  constructor
  · rw [generalSelect_flatEntries A Opcode.colle
      (fun _ j _ => decide (j ≤ jt)) athunk (fun h => nomatch h)]
    exact selectedChunks_colle_flatten A jt hwf hh h0 hj
  · rw [generalSelect_anz, generalCp_total, ← selectedChunks_lengths,
      ← List.length_flatten, selectedChunks_colle_flatten A jt hwf hh h0 hj,
      List.length_take, List.length_zip]
    have hvl := vals_length A hwf
    have hw := hwf
    obtain ⟨hplen, hp0, hmono, hilen, hxlen, hb, hhyp⟩ := hw
    have hnv : A.nvec = A.vdim := by
      rw [hh] at hhyp
      exact hhyp.2
    have hkT : jt.toNat < A.nvec := by
      rw [hnv]
      exact (Int.toNat_lt h0).mpr hj
    have hcle : A.p.getD (jt.toNat + 1) 0 ≤ A.p.getD A.nvec 0 :=
      p_mono_le A hmono A.nvec le_rfl (jt.toNat + 1) hkT
    have hanz : A.anz = A.p.getD A.nvec 0 := rfl
    omega

/-- Claim C5: for a sparse well-formed matrix and an in-range target
column, the `COLLE` column path — binary-search/direct lookup, closed-form
counts, bulk array copies — produces exactly the same retained entries and
entry count as the general two-phase path run on the equivalent
value-independent predicate "column ≤ j", the count being `Ap [j+1]`. -/
theorem colle_matches_general_path [Inhabited α] (A : SparseMat α)
    (jt : Int) (athunk : α) (hwf : A.wf) (hh : A.h = none)
    (h0 : 0 ≤ jt) (hj : jt < (A.vdim : Int)) :
    (colSelect A Opcode.colle jt).flatEntries =
      (generalSelect A Opcode.colle (fun _ j _ => decide (j ≤ jt))
        athunk).flatEntries ∧
    (colSelect A Opcode.colle jt).anz =
      (generalSelect A Opcode.colle (fun _ j _ => decide (j ≤ jt))
        athunk).anz ∧
    (colSelect A Opcode.colle jt).anz = A.p.getD (jt.toNat + 1) 0 := by
  have hA := colSelectColLE_entries A jt hwf hh h0 hj
  have hB := generalSelect_colle_entries A jt athunk hwf hh h0 hj
  have hcs : colSelect A Opcode.colle jt = colSelectColLE A jt := rfl
  rw [hcs]
  exact ⟨hA.1.trans hB.1.symm, hA.2.trans hB.2.symm, hA.2⟩

/-- Witness for C5: the spec's example — 5 vectors with nonzero counts
`[3,0,2,5,1]`, selecting columns ≤ 2 — yields vectors 0 through 2 with
entry count `3+0+2 = 5`, and the column path's output equals the general
path's output as a whole matrix. -/
theorem colle_matches_general_path_witness :
    (colSelect colEx Opcode.colle 2).flatEntries =
      (generalSelect colEx Opcode.colle (fun _ j _ => decide (j ≤ 2))
        0).flatEntries ∧
    (colSelect colEx Opcode.colle 2).anz =
      (generalSelect colEx Opcode.colle (fun _ j _ => decide (j ≤ 2))
        0).anz ∧
    (colSelect colEx Opcode.colle 2).anz = colEx.p.getD ((2 : Int).toNat + 1) 0 ∧
    (colSelect colEx Opcode.colle 2).anz = 5 ∧
    (colSelect colEx Opcode.colle 2).p = [0, 3, 3, 5, 5, 5] ∧
    colSelect colEx Opcode.colle 2 =
      generalSelect colEx Opcode.colle (fun _ j _ => decide (j ≤ 2)) 0 :=
  ⟨(colle_matches_general_path colEx 2 0 (by decide) rfl (by decide)
      (by decide)).1,
   (colle_matches_general_path colEx 2 0 (by decide) rfl (by decide)
      (by decide)).2.1,
   (colle_matches_general_path colEx 2 0 (by decide) rfl (by decide)
      (by decide)).2.2,
   by decide, by decide, by decide⟩

end GraphBLAS
